import Mathlib

/-!
Verification of the presentation-timer schedule model (`src/script.js`).

The JavaScript code is shallowly embedded: absolute instants (JS `Date`
values obtained from `new Date(year, month, day, h, m, s)` and `getTime()`)
are modelled as `Int` milliseconds counted from local midnight of the day
current at the call ("day 0"); an invalid `Date` (NaN time value, arising
from arithmetic with a NaN duration) is modelled as `none` in `Option Int`.
JS numbers that can be NaN (the result of `parseInt`) are modelled as
`Option Int` with `none` for NaN.  String handling (`split`, `trim`,
`replace(/['"]+/g,'')`, `parseInt`) is modelled character-by-character.
-/

namespace PresoTimer

/-- The character `:` (code 58). -/
def chColon : Char := Char.ofNat 58

/-- The character `\n` (code 10). -/
def chNewline : Char := Char.ofNat 10

/-- The character `-` (code 45). -/
def chMinus : Char := Char.ofNat 45

/-- The character `+` (code 43). -/
def chPlus : Char := Char.ofNat 43

/-- The character `#` (code 35). -/
def chHash : Char := Char.ofNat 35

/-- The single-quote character (code 39). -/
def chQuoteS : Char := Char.ofNat 39

/-- The double-quote character (code 34). -/
def chQuoteD : Char := Char.ofNat 34

/-- The character `0` (code 48). -/
def chZero : Char := Char.ofNat 48

/-- The character `x` (code 120). -/
def chLowerX : Char := Char.ofNat 120

/-- The character `X` (code 88). -/
def chUpperX : Char := Char.ofNat 88

/-- The decimal digit character for `k` (`k < 10` in every use). -/
def digitChar (k : Nat) : Char := Char.ofNat (48 + k)

/-- Model of `n.toString().padStart(2, '0')` for `n < 100`: two decimal
digit characters with a leading zero. -/
def pad2c (n : Nat) : List Char := [digitChar (n / 10), digitChar (n % 10)]

/-- Model of JS `String.prototype.split` with a one-character separator:
splits a character list at every occurrence of `sep` (occurrences are not
kept; adjacent separators give empty groups, like JS `split`). -/
def splitOnChar (sep : Char) : List Char → List (List Char)
  | [] => [[]]
  | c :: cs =>
    if c = sep then [] :: splitOnChar sep cs
    else
      match splitOnChar sep cs with
      | g :: gs => (c :: g) :: gs
      | [] => [[c]]

/-- Model of JS `String.prototype.trim`: drop whitespace from both ends. -/
def jsTrim (cs : List Char) : List Char :=
  ((cs.dropWhile Char.isWhitespace).reverse.dropWhile Char.isWhitespace).reverse

/-- Model of `.replace(/['"]+/g, '')`: remove every single or double quote. -/
def removeQuotes (cs : List Char) : List Char :=
  cs.filter (fun c => ¬ (c = chQuoteS ∨ c = chQuoteD))

/-- Value of the longest leading run of decimal digits; `none` when there is
no leading digit (JS `parseInt` yields NaN then). -/
def decNatVal (cs : List Char) : Option Nat :=
  let ds := cs.takeWhile Char.isDigit
  if ds = [] then none
  else some (ds.foldl (fun acc c => 10 * acc + (c.toNat - 48)) 0)

/-- `true` for `0`-`9`, `a`-`f`, `A`-`F`. -/
def isHexDigitChar (c : Char) : Bool :=
  c.isDigit ∨ (97 ≤ c.toNat ∧ c.toNat ≤ 102) ∨ (65 ≤ c.toNat ∧ c.toNat ≤ 70)

/-- Numeric value of a hexadecimal digit character. -/
def hexDigitVal (c : Char) : Nat :=
  if c.isDigit then c.toNat - 48
  else if 97 ≤ c.toNat then c.toNat - 87
  else c.toNat - 55

/-- Value of the longest leading run of hexadecimal digits, `none` if empty. -/
def hexNatVal (cs : List Char) : Option Nat :=
  let ds := cs.takeWhile isHexDigitChar
  if ds = [] then none
  else some (ds.foldl (fun acc c => 16 * acc + hexDigitVal c) 0)

/-- Model of JS `parseInt(s, 10)` (used in `parseTime`): skip leading
whitespace, one optional sign, then the longest decimal-digit run; `none`
models NaN. -/
def jsParseIntDec (cs : List Char) : Option Int :=
  let cs := cs.dropWhile Char.isWhitespace
  match cs with
  | c :: rest =>
    if c = chMinus then (decNatVal rest).map (fun n => -(n : Int))
    else if c = chPlus then (decNatVal rest).map (fun n => (n : Int))
    else (decNatVal cs).map (fun n => (n : Int))
  | [] => none

/-- Hex-or-decimal core of radix-free `parseInt`: a `0x`/`0X` prefix selects
hexadecimal, otherwise decimal. -/
def jsParseIntCore (cs : List Char) : Option Nat :=
  match cs with
  | z :: x :: rest =>
    if z = chZero ∧ (x = chLowerX ∨ x = chUpperX) then hexNatVal rest
    else decNatVal cs
  | _ => decNatVal cs

/-- Model of JS `parseInt(s)` with no radix (used on `duration:` values):
like `jsParseIntDec` but honouring a `0x` hexadecimal prefix. -/
def jsParseInt (cs : List Char) : Option Int :=
  let cs := cs.dropWhile Char.isWhitespace
  match cs with
  | c :: rest =>
    if c = chMinus then (jsParseIntCore rest).map (fun n => -(n : Int))
    else if c = chPlus then (jsParseIntCore rest).map (fun n => (n : Int))
    else (jsParseIntCore cs).map (fun n => (n : Int))
  | [] => none

/-- One day in milliseconds. -/
def msPerDay : Int := 86400000

/-- Embedding of `formatTime(date)` (src/script.js:74-89): the `HH:MM:SS`
string of the date's local time-of-day.  `getHours`/`getMinutes`/`getSeconds`
of an instant `t` milliseconds from day-0 midnight are the Euclidean
remainder decomposition of `t` within its day; each component is below 100,
so `padStart(2,'0')` is the two-digit form `pad2c`.  An invalid date
(`none`) formats as `"NaN:NaN:NaN"` because `NaN.toString().padStart(2,'0')`
is `"NaN"`. -/
def formatTime : Option Int → String
  | none => "NaN:NaN:NaN"
  | some t =>
    let tod : Nat := (t % msPerDay).toNat
    String.mk (pad2c (tod / 3600000) ++ chColon ::
      (pad2c (tod % 3600000 / 60000) ++ chColon :: pad2c (tod % 60000 / 1000)))

/-- Embedding of the body of `parseTime` before the reference-date rollover
(src/script.js:26-47): split on `:` into exactly three parts, `parseInt`
each with radix 10, reject NaN and out-of-range components, and build the
instant on day 0. -/
def parseTimeCore (s : String) : Except String Int :=
  match splitOnChar chColon s.data with
  | [p1, p2, p3] =>
    match jsParseIntDec p1, jsParseIntDec p2, jsParseIntDec p3 with
    | some hh, some mm, some ss =>
      if hh < 0 ∨ 23 < hh ∨ mm < 0 ∨ 59 < mm ∨ ss < 0 ∨ 59 < ss then
        .error "Time components out of range"
      else .ok (((hh * 3600 + mm * 60 + ss) * 1000 : Int))
    | _, _, _ => .error "Invalid time components"
  | _ => .error "Time format must be HH:MM:SS"

/-- Embedding of `parseTime(timeString, referenceDate)` (src/script.js:26-67):
the day-0 instant, advanced one day when a reference is supplied and the
instant is strictly earlier than it.  A `none` reference models both an
absent reference and an invalid (NaN) one, for which the JS comparison
`date.getTime() < referenceDate.getTime()` is false. -/
def parseTime (s : String) (ref : Option Int) : Except String Int :=
  (parseTimeCore s).map (fun t =>
    match ref with
    | some r => if t < r then t + msPerDay else t
    | none => t)

/-- A section of the presentation as held in `presentationData.sections`:
a name, a duration in minutes (`none` models a NaN number, which JS can
store there via `parseInt`), and the derived `start`/`end` time strings. -/
structure Section where
  name : String
  duration : Option Int
  start : String := ""
  «end» : String := ""
  deriving Repr, DecidableEq

/-- The global `presentationData` object. -/
structure Schedule where
  title : String
  start_time : String
  sections : List Section
  deriving Repr, DecidableEq

/-- The object returned by `getCurrentSection`: the section's name and its
resolved absolute start/end instants (`getTime()` values). -/
structure CurrentSection where
  name : String
  start : Int
  «end» : Int
  deriving Repr, DecidableEq

/-- A section object as built by the line-parsing phase of `parseYAMLData`:
`duration` is absent (`none`) until a `duration:` line is seen, and the
stored number may itself be NaN (`some none`). -/
structure RawSection where
  name : String
  duration : Option (Option Int)
  deriving Repr, DecidableEq

/-- The `data` object built by the line-parsing phase of `parseYAMLData`.
JS leaves `start_time` undefined until a `start_time:` line appears; the
empty string models that (both are falsy in the later default check). -/
structure RawData where
  title : String
  start_time : String
  sections : List RawSection
  deriving Repr, DecidableEq

/-- The three status colors. -/
inductive Color where
  | red
  | yellow
  | green
  deriving Repr, DecidableEq

/-- Embedding of `getTimeStatus(currentTime, startTime, endTime)`
(src/script.js:112-124), on `getTime()` millisecond values. -/
def getTimeStatus (currentTime startTime endTime : Int) : Color :=
  let _ := startTime
  if currentTime > endTime then .red
  else if currentTime ≥ endTime - 5 * 60 * 1000 then .yellow
  else .green

/-- Embedding of the remaining-time color chain in `updateDisplay`
(src/script.js:600-608), applied to `timeRemaining = currentSection.end -
currentTime.getTime()` in milliseconds. -/
def classifyRemainingTime (timeRemaining : Int) : Color :=
  if timeRemaining ≤ 0 then .red
  else if timeRemaining ≤ 1 * 60 * 1000 then .red
  else if timeRemaining ≤ 5 * 60 * 1000 then .yellow
  else .green

/-- `"title:"` as characters. -/
def keyTitle : List Char := "title:".data

/-- `"start_time:"` as characters. -/
def keyStartTime : List Char := "start_time:".data

/-- `"sections:"` as characters. -/
def keySections : List Char := "sections:".data

/-- `"- name:"` as characters. -/
def keyName : List Char := "- name:".data

/-- `"duration:"` as characters. -/
def keyDuration : List Char := "duration:".data

/-- Overwrite the `duration` of the last section in the list (the JS code
writes to `data.sections[data.sections.length - 1]`). -/
def setLastDuration : List RawSection → Option (Option Int) → List RawSection
  | [], _ => []
  | [r], d => [{r with duration := d}]
  | r :: rest, d => r :: setLastDuration rest d

/-- Embedding of the per-line body of the `lines.forEach` in `parseYAMLData`
(src/script.js:150-179).  The state is the `data` object under construction
together with the `inSections` flag. -/
def parseLine (st : RawData × Bool) (line : List Char) : RawData × Bool :=
  let data := st.1
  let inSections := st.2
  let l := jsTrim line
  if l = [] ∨ l.head? = some chHash then st
  else if keyTitle.isPrefixOf l then
    ({data with title := String.mk (removeQuotes (jsTrim (l.drop 6)))}, inSections)
  else if keyStartTime.isPrefixOf l then
    ({data with start_time := String.mk (removeQuotes (jsTrim (l.drop 11)))}, inSections)
  else if l = keySections then (data, true)
  else if inSections ∧ keyName.isPrefixOf l then
    ({data with sections :=
       data.sections ++ [{name := String.mk (removeQuotes (jsTrim (l.drop 7))), duration := none}]},
     inSections)
  else if inSections ∧ data.sections ≠ [] ∧ keyDuration.isPrefixOf l then
    ({data with sections := setLastDuration data.sections (some (jsParseInt (jsTrim (l.drop 9))))},
     inSections)
  else st

/-- The line-parsing phase of `parseYAMLData` (src/script.js:145-179): split
the text into lines and fold `parseLine` over them. -/
def parseYAMLRaw (yamlText : String) : RawData :=
  ((splitOnChar chNewline yamlText.data).foldl parseLine
    ({title := "", start_time := "", sections := []}, false)).1

/-- Embedding of the validate-and-derive `forEach` of `parseYAMLData`
(src/script.js:200-220).  `cur` is the running `currentTime` `Date`
(`none` = invalid date), `idx` the section index used in error messages.
For each section: reject an empty name, then a missing `duration`; set
`start` to `formatTime(currentTime)`; recompute the base instant via
`parseTime(formatTime(currentTime), currentTime)`; add the duration in
minutes (NaN duration gives an invalid date); set `end`; chain. -/
def validateLoop : Option Int → Nat → List RawSection → Except String (List Section)
  | _, _, [] => .ok []
  | cur, idx, r :: rest =>
    if r.name = "" then .error ("Section " ++ toString idx ++ " missing name")
    else
      match r.duration with
      | none => .error ("Section \"" ++ r.name ++ "\" missing duration")
      | some dur =>
        let startStr := formatTime cur
        match parseTime startStr cur with
        | .error e => .error e
        | .ok base =>
          let endT : Option Int := dur.map (fun d => base + 60000 * d)
          match validateLoop endT (idx + 1) rest with
          | .error e => .error e
          | .ok out =>
            .ok ({name := r.name, duration := dur, start := startStr,
                  «end» := formatTime endT} :: out)

/-- Embedding of `parseYAMLData(yamlText)` (src/script.js:143-223).  `now`
is the wall clock at the call (`new Date()`), used for the default
`start_time`; instants are milliseconds from day-0 midnight.  After the
line fold: default the title and start time when falsy, reject an empty
section list, parse the start time (a throw propagates), then validate and
derive every section. -/
def parseYAMLData (now : Int) (yamlText : String) : Except String Schedule :=
  let data := parseYAMLRaw yamlText
  let title := if data.title = "" then "Presentation Timer" else data.title
  let stime := if data.start_time = "" then formatTime (some now) else data.start_time
  if data.sections = [] then .error "No sections found in YAML file"
  else
    match parseTime stime none with
    | .error e => .error e
    | .ok t0 =>
      match validateLoop (some t0) 0 data.sections with
      | .error e => .error e
      | .ok secs => .ok {title := title, start_time := stime, sections := secs}

/-- Embedding of the `sections.forEach` of `recalculateTimesFromStart`
(src/script.js:282-293), with the running `currentTime`.  A throw inside
the loop (only possible when `currentTime` is an invalid date, so that
`parseTime(formatTime(currentTime), currentTime)` rejects `"NaN:NaN:NaN"`)
is caught by the function's `catch`: the section reached keeps its stale
`end` but has already been given the new `start`, and later sections are
left untouched. -/
def deriveLoop : Option Int → List Section → List Section
  | _, [] => []
  | cur, sec :: rest =>
    let startStr := formatTime cur
    match parseTime startStr cur with
    | .error _ => {sec with start := startStr} :: rest
    | .ok base =>
      let endT : Option Int :=
        match sec.duration with
        | none => none
        | some d => some (base + 60000 * d)
      {sec with start := startStr, «end» := formatTime endT} :: deriveLoop endT rest

/-- Embedding of `recalculateTimesFromStart(newStartTime)`
(src/script.js:267-303).  The start-time field is overwritten before
`parseTime` runs; when `parseTime` throws, the error is caught and logged,
so the sections are left as they were but `start_time` keeps the new
value. -/
def recalculateTimesFromStart (sched : Schedule) (newStartTime : String) : Schedule :=
  let sched := {sched with start_time := newStartTime}
  match parseTime newStartTime none with
  | .error _ => sched
  | .ok t0 => {sched with sections := deriveLoop (some t0) sched.sections}

/-- The interval resolution performed for one section inside the
`sections.some` callback of `getCurrentSection` (src/script.js:663-668):
resolve the presentation start time with no reference, the section's start
against it, and the section's end against the resolved start. -/
def resolveInterval (stime : String) (sec : Section) : Except String (Int × Int) :=
  match parseTime stime none with
  | .error e => .error e
  | .ok pst =>
    match parseTime sec.start (some pst) with
    | .error e => .error e
    | .ok st =>
      match parseTime sec.«end» (some st) with
      | .error e => .error e
      | .ok en => .ok (st, en)

/-- The `sections.some` scan of `getCurrentSection` (src/script.js:661-682):
sections are visited in order; a throw while resolving a section is caught
and that section skipped; the first section whose `[start, end)` interval
contains `now` is returned. -/
def getCurrentSectionAux (stime : String) (now : Int) : List Section → Option CurrentSection
  | [] => none
  | sec :: rest =>
    match resolveInterval stime sec with
    | .error _ => getCurrentSectionAux stime now rest
    | .ok (st, en) =>
      if now ≥ st ∧ now < en then some {name := sec.name, start := st, «end» := en}
      else getCurrentSectionAux stime now rest

/-- Embedding of `getCurrentSection(time)` (src/script.js:651-689). -/
def getCurrentSection (sched : Schedule) (now : Int) : Option CurrentSection :=
  getCurrentSectionAux sched.start_time now sched.sections

/-- The error paths of `updateSectionDuration`, reported through
`console.error` followed by an early return in the JS code. -/
inductive UpdErr where
  | indexError
  | invalidDuration
  deriving Repr, DecidableEq

/-- Replace the `duration` of the section at position `i`. -/
def setDuration : List Section → Nat → Option Int → List Section
  | [], _, _ => []
  | sec :: rest, 0, d => {sec with duration := d} :: rest
  | sec :: rest, i + 1, d => sec :: setDuration rest i d

/-- Embedding of `updateSectionDuration(sectionIndex, newDuration)`
(src/script.js:473-505).  The duration argument is a JS number, possibly
NaN (`none`); the guard `!newDuration || newDuration < 1` is true exactly
for NaN and values below 1 (zero is caught by either test).  On an error
path nothing has been written, so the schedule comes back unchanged
together with the reported error; otherwise the duration is written and
`recalculateTimesFromStart(presentationData.start_time)` re-derives every
section. -/
def updateSectionDuration (sched : Schedule) (sectionIndex : Int) (newDuration : Option Int) :
    Schedule × Option UpdErr :=
  if sectionIndex < 0 ∨ (sched.sections.length : Int) ≤ sectionIndex then
    (sched, some .indexError)
  else
    match newDuration with
    | none => (sched, some .invalidDuration)
    | some d =>
      if d < 1 then (sched, some .invalidDuration)
      else
        let secs := setDuration sched.sections sectionIndex.toNat newDuration
        (recalculateTimesFromStart {sched with sections := secs} sched.start_time, none)

/-- Model of `Array.prototype.findIndex` with the predicate
`section => section.name === currentSection.name` used by `adjustTimes`
(src/script.js:738-740): index of the first section with that name. -/
def findIdxName : List Section → String → Option Nat
  | [], _ => none
  | sec :: rest, nm =>
    if sec.name = nm then some 0 else (findIdxName rest nm).map (· + 1)

/-- Embedding of `adjustTimes(minutes)` (src/script.js:695-764).  `now` is
the wall clock read by `new Date()` at the call.  A throw from the initial
`parseTime(presentationData.start_time)` is caught by the outer `catch`,
leaving the schedule unchanged.  Before the start: shift the start time and
recompute.  Otherwise: find the current section, locate it in the data
array by name, decline silently when the new duration would drop below one
minute, and otherwise delegate to `updateSectionDuration`. -/
def adjustTimes (sched : Schedule) (now : Int) (minutes : Int) : Schedule :=
  match parseTime sched.start_time none with
  | .error _ => sched
  | .ok startMs =>
    if now < startMs then
      recalculateTimesFromStart sched (formatTime (some (startMs + minutes * 60 * 1000)))
    else
      match getCurrentSection sched now with
      | none => sched
      | some cur =>
        match findIdxName sched.sections cur.name with
        | none => sched
        | some k =>
          match sched.sections[k]? with
          | none => sched
          | some sec =>
            match sec.duration.map (fun d => d + minutes) with
            | some nd =>
              if nd < 1 then sched
              else (updateSectionDuration sched (k : Int) (some nd)).1
            | none => (updateSectionDuration sched (k : Int) none).1

theorem digitChar_isDigit : ∀ k, k < 10 → (digitChar k).isDigit = true := by decide

theorem digitChar_not_ws : ∀ k, k < 10 → (digitChar k).isWhitespace = false := by decide

theorem digitChar_ne_minus : ∀ k, k < 10 → digitChar k ≠ chMinus := by decide

theorem digitChar_ne_plus : ∀ k, k < 10 → digitChar k ≠ chPlus := by decide

theorem digitChar_ne_colon : ∀ k, k < 10 → digitChar k ≠ chColon := by decide

theorem digitChar_toNat : ∀ k, k < 10 → (digitChar k).toNat = 48 + k := by decide

theorem chColon_not_mem_pad2c {n : Nat} (h : n < 100) : chColon ∉ pad2c n := by
  have h1 : n / 10 < 10 := by omega
  have h2 : n % 10 < 10 := by omega
  simp only [pad2c, List.mem_cons, List.not_mem_nil, or_false]
  intro hc
  rcases hc with hc | hc
  · exact digitChar_ne_colon _ h1 hc.symm
  · exact digitChar_ne_colon _ h2 hc.symm

theorem decNatVal_pad2c {n : Nat} (h : n < 100) : decNatVal (pad2c n) = some n := by
  have h1 : n / 10 < 10 := by omega
  have h2 : n % 10 < 10 := by omega
  simp only [decNatVal, pad2c, List.takeWhile, digitChar_isDigit _ h1, digitChar_isDigit _ h2,
    List.takeWhile_nil, reduceCtorEq, if_false, List.foldl, digitChar_toNat _ h1,
    digitChar_toNat _ h2]
  congr 1
  omega

theorem jsParseIntDec_pad2c {n : Nat} (h : n < 100) : jsParseIntDec (pad2c n) = some (n : Int) := by
  have h1 : n / 10 < 10 := by omega
  simp only [jsParseIntDec, pad2c, List.dropWhile, digitChar_not_ws _ h1]
  rw [if_neg (digitChar_ne_minus _ h1), if_neg (digitChar_ne_plus _ h1)]
  rw [show [digitChar (n / 10), digitChar (n % 10)] = pad2c n from rfl, decNatVal_pad2c h]
  rfl

theorem splitOnChar_not_mem {sep : Char} {xs : List Char} (h : sep ∉ xs) :
    splitOnChar sep xs = [xs] := by
  induction xs with
  | nil => rfl
  | cons c cs ih =>
    simp only [List.mem_cons, not_or] at h
    rw [splitOnChar, if_neg (fun hc => h.1 hc.symm), ih h.2]

theorem splitOnChar_append {sep : Char} {xs ys : List Char} (h : sep ∉ xs) :
    splitOnChar sep (xs ++ sep :: ys) = xs :: splitOnChar sep ys := by
  induction xs with
  | nil =>
    simp only [List.nil_append]
    rw [splitOnChar, if_pos rfl]
  | cons c cs ih =>
    simp only [List.mem_cons, not_or] at h
    simp only [List.cons_append]
    rw [splitOnChar, if_neg (fun hc => h.1 hc.symm), ih h.2]

/-- Round trip: formatting any instant and reparsing it recovers the
instant's time-of-day truncated to whole seconds. -/
theorem parseTimeCore_formatTime (t : Int) :
    parseTimeCore (formatTime (some t)) = .ok (t % msPerDay / 1000 * 1000) := by
  have hnn : 0 ≤ t % msPerDay := Int.emod_nonneg t (by norm_num [msPerDay])
  have hlt : t % msPerDay < 86400000 := by
    have := Int.emod_lt_of_pos t (show (0 : Int) < msPerDay by norm_num [msPerDay])
    simpa [msPerDay] using this
  set tod : Nat := (t % msPerDay).toNat with htod
  have htodlt : tod < 86400000 := by omega
  have hh : tod / 3600000 < 100 := by omega
  have hm : tod % 3600000 / 60000 < 100 := by omega
  have hs : tod % 60000 / 1000 < 100 := by omega
  show parseTimeCore (String.mk _) = _
  rw [parseTimeCore]
  show (match splitOnChar chColon
      (pad2c (tod / 3600000) ++ chColon :: (pad2c (tod % 3600000 / 60000) ++
        chColon :: pad2c (tod % 60000 / 1000))) with
    | [p1, p2, p3] => _
    | _ => _) = _
  rw [splitOnChar_append (chColon_not_mem_pad2c hh),
    splitOnChar_append (chColon_not_mem_pad2c hm),
    splitOnChar_not_mem (chColon_not_mem_pad2c hs)]
  simp only [jsParseIntDec_pad2c hh, jsParseIntDec_pad2c hm, jsParseIntDec_pad2c hs]
  have hrange : ¬ (((tod / 3600000 : Nat) : Int) < 0 ∨ 23 < ((tod / 3600000 : Nat) : Int) ∨
      ((tod % 3600000 / 60000 : Nat) : Int) < 0 ∨ 59 < ((tod % 3600000 / 60000 : Nat) : Int) ∨
      ((tod % 60000 / 1000 : Nat) : Int) < 0 ∨ 59 < ((tod % 60000 / 1000 : Nat) : Int)) := by
    push_cast
    omega
  rw [if_neg hrange]
  congr 1
  push_cast
  omega

/-- C8: the big-countdown readout classification (the color chain of
`updateDisplay`) yields Red exactly for remaining milliseconds ≤ 60000
(including every value ≤ 0), Yellow exactly for values in (60000, 300000],
and Green exactly for values > 300000; in particular 0 and 60000 map to
Red, 60001 and 300000 to Yellow, and 300001 to Green. -/
theorem classifyRemainingTime_thresholds (ms : Int) :
    (classifyRemainingTime ms = .red ↔ ms ≤ 60000) ∧
    (classifyRemainingTime ms = .yellow ↔ 60000 < ms ∧ ms ≤ 300000) ∧
    (classifyRemainingTime ms = .green ↔ 300000 < ms) ∧
    classifyRemainingTime 0 = .red ∧ classifyRemainingTime 60000 = .red ∧
    classifyRemainingTime 60001 = .yellow ∧ classifyRemainingTime 300000 = .yellow ∧
    classifyRemainingTime 300001 = .green := by
  refine ⟨?_, ?_, ?_, by decide, by decide, by decide, by decide, by decide⟩ <;>
    · unfold classifyRemainingTime
      split_ifs <;> simp_all <;> omega

/-- C9: the per-row section classifier `getTimeStatus` yields Red exactly
when `now > end`, Yellow exactly when `end - 5min ≤ now ≤ end` (so `now =
end` reads Yellow, not Red), Green exactly when `now < end - 5min`; it is a
function of the distance to `end` only, ignoring the start argument, and is
therefore the same rule for every section's row. -/
theorem getTimeStatus_spec (now st en : Int) :
    (getTimeStatus now st en = .red ↔ en < now) ∧
    (getTimeStatus now st en = .yellow ↔ en - 5 * 60 * 1000 ≤ now ∧ now ≤ en) ∧
    (getTimeStatus now st en = .green ↔ now < en - 5 * 60 * 1000) ∧
    getTimeStatus en st en = .yellow ∧
    (∀ st1 st2, getTimeStatus now st1 en = getTimeStatus now st2 en) := by
  refine ⟨?_, ?_, ?_, ?_, fun st1 st2 => rfl⟩ <;>
    · unfold getTimeStatus
      split_ifs <;> simp_all <;> omega

/-- A concrete one-section schedule used to exhibit C1's failure. -/
def c1Sched : Schedule :=
  {title := "Demo", start_time := "09:00:00",
   sections := [{name := "Intro", duration := some 10,
                 start := "09:00:00", «end» := "09:10:00"}]}

/-- C1 counterexample: `"banana"` does not resolve to a valid time-of-day,
yet `recalculateTimesFromStart` does not leave the schedule exactly as it
was: the `start_time` field is overwritten (before validation) with the
invalid string. -/
theorem recalc_invalid_modifies_schedule :
    (∃ e, parseTime "banana" none = .error e) ∧
    recalculateTimesFromStart c1Sched "banana" ≠ c1Sched ∧
    (recalculateTimesFromStart c1Sched "banana").start_time = "banana" := by
  refine ⟨⟨"Time format must be HH:MM:SS", rfl⟩, by decide, by decide⟩

/-- C1 amended: when the new start-time string does not resolve to a valid
time-of-day, `recalculateTimesFromStart` leaves the title and every section
(including all derived start/end fields) unchanged, but overwrites the
schedule's `start_time` with the invalid string, and no error reaches the
caller (the throw is caught and only logged). -/
theorem recalc_invalid_start_behavior (sched : Schedule) (ts : String) (e : String)
    (h : parseTime ts none = .error e) :
    recalculateTimesFromStart sched ts = {sched with start_time := ts} := by
  simp only [recalculateTimesFromStart, h]

/-- Witness for the amended C1 at a concrete schedule and invalid string. -/
theorem recalc_invalid_start_behavior_witness :
    recalculateTimesFromStart
        {title := "W", start_time := "08:00:00",
         sections := [{name := "One", duration := some 5,
                       start := "08:00:00", «end» := "08:05:00"}]} "25:99:00" =
      {title := "W", start_time := "25:99:00",
       sections := [{name := "One", duration := some 5,
                     start := "08:00:00", «end» := "08:05:00"}]} :=
  recalc_invalid_start_behavior _ "25:99:00" "Time components out of range" rfl

/-- Resolution of a stored time-of-day against a reference instant as the
claim describes it (modelled from the claim's words, for comparison with
`parseTime`): place the time-of-day on the reference's calendar day and
roll forward one day exactly when the result would be strictly earlier than
the reference. -/
def claimResolve (tod ref : Int) : Int :=
  let base := msPerDay * (ref / msPerDay) + tod
  if base < ref then base + msPerDay else base

/-- C4 counterexample: `parseTime` always builds the instant on the
calendar day current at the call, not on the reference's calendar day.
With the reference at 01:00 of the next day (90000000 ms) and stored
time-of-day `00:30:00` (1800000 ms), the code yields 88200000 (00:30 on
day 1), which is still strictly earlier than the reference and not on the
instant the claim's resolution rule produces (174600000, 00:30 on day
2). -/
theorem parseTime_ref_not_claim :
    parseTime "00:30:00" none = .ok 1800000 ∧
    parseTime "00:30:00" (some 90000000) = .ok 88200000 ∧
    claimResolve 1800000 90000000 = 174600000 ∧
    ((88200000 : Int) ≠ 174600000 ∧ (88200000 : Int) < 90000000) := by
  refine ⟨rfl, rfl, by decide, by decide⟩

/-- C4 amended: when the reference instant lies on the calendar day current
at the call (day 0), `parseTime` resolves exactly as the claim states: the
result sits on the reference's calendar day, rolled forward to the next
day exactly when it would otherwise be strictly earlier than the
reference.  (For references on later days the instant is still built on
day 0 and rolled at most once, which is what the counterexample
exhibits.) -/
theorem parseTime_ref_day0 (s : String) (ref t : Int)
    (h0 : 0 ≤ ref) (h1 : ref < msPerDay)
    (hparse : parseTimeCore s = .ok t) :
    parseTime s (some ref) = .ok (claimResolve t ref) := by
  unfold parseTime claimResolve
  rw [hparse]
  have hfd : ref / msPerDay = 0 := Int.ediv_eq_zero_of_lt h0 h1
  simp only [Except.map, hfd]
  norm_num

/-- A one-section schedule starting at 23:50 for the C4 witness. -/
def c4Sched : Schedule :=
  {title := "Roll", start_time := "23:50:00",
   sections := [{name := "S", duration := some 20}]}

/-- Witness for the amended C4 at a concrete reference on day 0, together
with the claim's own example: a section starting at 23:50 with duration 20
derives `end = "00:10:00"`, whose resolved instant 87000000 lies on the
calendar day after its start. -/
theorem parseTime_ref_day0_witness :
    parseTime "23:50:00" (some 85800000) = .ok (claimResolve 85800000 85800000) ∧
    (recalculateTimesFromStart c4Sched "23:50:00").sections.map
        (fun s => (s.start, s.«end»)) = [("23:50:00", "00:10:00")] ∧
    parseTime "00:10:00" (some 85800000) = .ok 87000000 ∧
    msPerDay ≤ 87000000 ∧ 85800000 < msPerDay :=
  ⟨parseTime_ref_day0 "23:50:00" 85800000 85800000 (by norm_num)
      (by norm_num [msPerDay]) rfl,
   by decide, rfl, by decide, by decide⟩

theorem parseTime_none (s : String) : parseTime s none = parseTimeCore s := by
  unfold parseTime
  cases parseTimeCore s <;> rfl

theorem parseTimeCore_ok_props {s : String} {t : Int} (h : parseTimeCore s = .ok t) :
    0 ≤ t ∧ t < msPerDay ∧ (1000 : Int) ∣ t := by
  unfold parseTimeCore at h
  split at h
  · split at h
    · split at h
      · exact absurd h (by simp)
      · rename_i hh mm ss _ _ _ hrange
        injection h with h
        push_neg at hrange
        refine ⟨?_, ?_, ?_⟩ <;> simp only [msPerDay, ← h] <;> omega
    · exact absurd h (by simp)
  · exact absurd h (by simp)

/-- The value `parseTime(formatTime(currentTime), currentTime)` takes for a
valid whole-second instant: the instant's time-of-day, rolled one day
forward when that alone is strictly earlier than the instant. -/
def jsBase (t : Int) : Int :=
  if t % msPerDay < t then t % msPerDay + msPerDay else t % msPerDay

theorem parseTime_formatTime_none {t : Int} (hw : (1000 : Int) ∣ t) :
    parseTime (formatTime (some t)) none = .ok (t % msPerDay) := by
  rw [parseTime_none, parseTimeCore_formatTime]
  congr 1
  have h1000 : (1000 : Int) ∣ t % msPerDay := by
    simp only [msPerDay]
    omega
  omega

theorem parseTime_formatTime_self {t : Int} (hw : (1000 : Int) ∣ t) :
    parseTime (formatTime (some t)) (some t) = .ok (jsBase t) := by
  unfold parseTime jsBase
  rw [parseTimeCore_formatTime]
  have h1000 : (1000 : Int) ∣ t % msPerDay := by
    simp only [msPerDay]
    omega
  have : t % msPerDay / 1000 * 1000 = t % msPerDay := by omega
  simp only [Except.map, this]

theorem jsBase_dvd {t : Int} (hw : (1000 : Int) ∣ t) : (1000 : Int) ∣ jsBase t := by
  unfold jsBase
  simp only [msPerDay]
  split <;> omega

theorem jsBase_emod (t : Int) : jsBase t % msPerDay = t % msPerDay := by
  unfold jsBase
  simp only [msPerDay]
  split <;> omega

theorem deriveLoop_cons {t : Int} (hw : (1000 : Int) ∣ t) (sec : Section) {d : Int}
    (hd : sec.duration = some d) (rest : List Section) :
    deriveLoop (some t) (sec :: rest) =
      {sec with start := formatTime (some t),
                «end» := formatTime (some (jsBase t + 60000 * d))} ::
        deriveLoop (some (jsBase t + 60000 * d)) rest := by
  rw [deriveLoop, parseTime_formatTime_self hw, hd]

/-- The chaining invariant of the recompute walk: starting from a valid
whole-second instant and with every duration numeric, the derived list has
the same length, its first `start` is the start instant's formatted
time-of-day, adjacent `end`/`start` strings agree, and every section's
`end` parses to its `start` plus its duration in minutes, modulo one
day. -/
theorem deriveLoop_chain : ∀ (secs : List Section) (t : Int), (1000 : Int) ∣ t →
    (∀ sec ∈ secs, sec.duration.isSome) →
    (deriveLoop (some t) secs).length = secs.length ∧
    (∀ sec0, (deriveLoop (some t) secs).head? = some sec0 →
       sec0.start = formatTime (some t)) ∧
    (∀ (i : Nat) (sa sb : Section), (deriveLoop (some t) secs)[i]? = some sa →
       (deriveLoop (some t) secs)[i + 1]? = some sb → sa.«end» = sb.start) ∧
    (∀ (i : Nat) (sa : Section), (deriveLoop (some t) secs)[i]? = some sa → ∃ d ts te,
       sa.duration = some d ∧ parseTime sa.start none = .ok ts ∧
       parseTime sa.«end» none = .ok te ∧ te = (ts + 60000 * d) % msPerDay)
  | [], t, _, _ => by simp [deriveLoop]
  | sec :: rest, t, hw, hdur => by
    obtain ⟨d, hd⟩ : ∃ d, sec.duration = some d := by
      have := hdur sec (by simp)
      exact Option.isSome_iff_exists.mp this
    have hwe : (1000 : Int) ∣ jsBase t + 60000 * d := by
      have := jsBase_dvd hw
      omega
    have ih := deriveLoop_chain rest (jsBase t + 60000 * d) hwe
      (fun s hs => hdur s (by simp [hs]))
    rw [deriveLoop_cons hw sec hd rest]
    refine ⟨by simpa using ih.1, ?_, ?_, ?_⟩
    · intro sec0 h0
      simp only [List.head?_cons, Option.some.injEq] at h0
      rw [← h0]
    · intro i sa sb hsa hsb
      cases i with
      | zero =>
        simp only [List.getElem?_cons_zero, Option.some.injEq] at hsa
        simp only [List.getElem?_cons_succ] at hsb
        have hhead : (deriveLoop (some (jsBase t + 60000 * d)) rest).head? = some sb := by
          cases hout : deriveLoop (some (jsBase t + 60000 * d)) rest with
          | nil => rw [hout] at hsb; simp at hsb
          | cons a l => rw [hout] at hsb; simpa using hsb
        have := ih.2.1 sb hhead
        rw [← hsa, this]
      | succ i =>
        simp only [List.getElem?_cons_succ] at hsa hsb
        exact ih.2.2.1 i sa sb hsa hsb
    · intro i sa hsa
      cases i with
      | zero =>
        simp only [List.getElem?_cons_zero, Option.some.injEq] at hsa
        refine ⟨d, t % msPerDay, (jsBase t + 60000 * d) % msPerDay, ?_, ?_, ?_, ?_⟩
        · rw [← hsa, hd]
        · rw [← hsa]
          exact parseTime_formatTime_none hw
        · rw [← hsa]
          exact parseTime_formatTime_none hwe
        · have hb := jsBase_emod t
          simp only [msPerDay] at hb ⊢
          omega
      | succ i =>
        simp only [List.getElem?_cons_succ] at hsa
        exact ih.2.2.2 i sa hsa

/-- C3: for a schedule with a valid start time, numeric durations and at
least one section, the recompute walk (`recalculateTimesFromStart`, which
is the same derivation the decode path runs) establishes the chain
invariant: the first section's `start` denotes the schedule's start
time-of-day, every adjacent pair satisfies `sections[i].end ==
sections[i+1].start` (string-identical derived fields), and every
section's `end` is its `start` plus its duration in minutes, modulo the
day rollover. -/
theorem recalc_establishes_chain (sched : Schedule) (newStart : String) (t0 : Int)
    (hparse : parseTime newStart none = .ok t0)
    (hdur : ∀ sec ∈ sched.sections, sec.duration.isSome)
    (hne : sched.sections ≠ []) :
    (∃ sec0, (recalculateTimesFromStart sched newStart).sections.head? = some sec0 ∧
       parseTime sec0.start none = .ok t0) ∧
    (∀ (i : Nat) (sa sb : Section),
       (recalculateTimesFromStart sched newStart).sections[i]? = some sa →
       (recalculateTimesFromStart sched newStart).sections[i + 1]? = some sb →
       sa.«end» = sb.start) ∧
    (∀ (i : Nat) (sa : Section),
       (recalculateTimesFromStart sched newStart).sections[i]? = some sa →
       ∃ d ts te, sa.duration = some d ∧ parseTime sa.start none = .ok ts ∧
         parseTime sa.«end» none = .ok te ∧ te = (ts + 60000 * d) % msPerDay) := by
  have hcore : parseTimeCore newStart = .ok t0 := by rwa [parseTime_none] at hparse
  obtain ⟨h0, hlt, hw⟩ := parseTimeCore_ok_props hcore
  have hsecs : (recalculateTimesFromStart sched newStart).sections =
      deriveLoop (some t0) sched.sections := by
    simp only [recalculateTimesFromStart, hparse]
  have hchain := deriveLoop_chain sched.sections t0 hw hdur
  rw [hsecs]
  refine ⟨?_, hchain.2.2.1, hchain.2.2.2⟩
  have hlen : (deriveLoop (some t0) sched.sections).length = sched.sections.length :=
    hchain.1
  have hne' : deriveLoop (some t0) sched.sections ≠ [] := by
    intro hnil
    rw [hnil] at hlen
    exact hne (List.length_eq_zero.mp hlen.symm)
  obtain ⟨sec0, rest0, hcons⟩ := List.exists_cons_of_ne_nil hne'
  refine ⟨sec0, by rw [hcons]; rfl, ?_⟩
  have hstart : sec0.start = formatTime (some t0) := by
    apply hchain.2.1
    rw [hcons]
    rfl
  rw [hstart, parseTime_formatTime_none hw]
  congr 1
  simp only [msPerDay] at hlt ⊢
  omega

/-- A concrete two-section schedule for the C3 witness. -/
def c3Sched : Schedule :=
  {title := "C3", start_time := "old",
   sections := [{name := "A", duration := some 10}, {name := "B", duration := some 20}]}

/-- Witness for C3 at a concrete schedule and start time. -/
theorem recalc_establishes_chain_witness :
    ∃ sec0, (recalculateTimesFromStart c3Sched "09:00:00").sections.head? = some sec0 ∧
      parseTime sec0.start none = .ok 32400000 :=
  (recalc_establishes_chain c3Sched "09:00:00" 32400000 rfl (by decide) (by decide)).1

theorem getCurrentSectionAux_none_iff (stime : String) (now : Int) :
    ∀ (secs : List Section),
      getCurrentSectionAux stime now secs = none ↔
        ∀ (j : Nat) (secj : Section) (stj enj : Int), secs[j]? = some secj →
          resolveInterval stime secj = .ok (stj, enj) → ¬(stj ≤ now ∧ now < enj)
  | [] => by simp [getCurrentSectionAux]
  | sec :: rest => by
    rw [getCurrentSectionAux]
    cases hres : resolveInterval stime sec with
    | error e =>
      rw [getCurrentSectionAux_none_iff stime now rest]
      constructor
      · intro h j secj stj enj hj hresj
        cases j with
        | zero =>
          simp only [List.getElem?_cons_zero, Option.some.injEq] at hj
          rw [← hj, hres] at hresj
          exact absurd hresj (by simp)
        | succ j =>
          exact h j secj stj enj (by simpa using hj) hresj
      · intro h j secj stj enj hj hresj
        exact h (j + 1) secj stj enj (by simpa using hj) hresj
    | ok p =>
      obtain ⟨st, en⟩ := p
      dsimp only
      by_cases hc : now ≥ st ∧ now < en
      · rw [if_pos hc]
        constructor
        · intro h
          exact absurd h (by simp)
        · intro h
          exact absurd ⟨hc.1, hc.2⟩ (h 0 sec st en (by simp) hres)
      · rw [if_neg hc]
        rw [getCurrentSectionAux_none_iff stime now rest]
        constructor
        · intro h j secj stj enj hj hresj
          cases j with
          | zero =>
            simp only [List.getElem?_cons_zero, Option.some.injEq] at hj
            rw [← hj, hres] at hresj
            injection hresj with hresj
            intro hcon
            apply hc
            rw [(Prod.mk.injEq _ _ _ _).mp hresj |>.1, (Prod.mk.injEq _ _ _ _).mp hresj |>.2]
            exact ⟨hcon.1, hcon.2⟩
          | succ j =>
            exact h j secj stj enj (by simpa using hj) hresj
        · intro h j secj stj enj hj hresj
          exact h (j + 1) secj stj enj (by simpa using hj) hresj

theorem getCurrentSectionAux_some_iff (stime : String) (now : Int) :
    ∀ (secs : List Section) (c : CurrentSection),
      getCurrentSectionAux stime now secs = some c ↔
        ∃ (i : Nat) (sec : Section), secs[i]? = some sec ∧
          resolveInterval stime sec = .ok (c.start, c.«end») ∧ c.name = sec.name ∧
          c.start ≤ now ∧ now < c.«end» ∧
          ∀ (j : Nat) (secj : Section) (stj enj : Int), j < i → secs[j]? = some secj →
            resolveInterval stime secj = .ok (stj, enj) → ¬(stj ≤ now ∧ now < enj)
  | [], c => by simp [getCurrentSectionAux]
  | sec :: rest, c => by
    rw [getCurrentSectionAux]
    cases hres : resolveInterval stime sec with
    | error e =>
      rw [getCurrentSectionAux_some_iff stime now rest c]
      constructor
      · rintro ⟨i, seci, hi, hresi, hname, h1, h2, hmin⟩
        refine ⟨i + 1, seci, by simpa using hi, hresi, hname, h1, h2, ?_⟩
        intro j secj stj enj hj hgj hresj
        cases j with
        | zero =>
          simp only [List.getElem?_cons_zero, Option.some.injEq] at hgj
          rw [← hgj, hres] at hresj
          exact absurd hresj (by simp)
        | succ j =>
          exact hmin j secj stj enj (by omega) (by simpa using hgj) hresj
      · rintro ⟨i, seci, hi, hresi, hname, h1, h2, hmin⟩
        cases i with
        | zero =>
          simp only [List.getElem?_cons_zero, Option.some.injEq] at hi
          rw [← hi, hres] at hresi
          exact absurd hresi (by simp)
        | succ i =>
          refine ⟨i, seci, by simpa using hi, hresi, hname, h1, h2, ?_⟩
          intro j secj stj enj hj hgj hresj
          exact hmin (j + 1) secj stj enj (by omega) (by simpa using hgj) hresj
    | ok p =>
      obtain ⟨st, en⟩ := p
      dsimp only
      by_cases hc : now ≥ st ∧ now < en
      · rw [if_pos hc]
        constructor
        · intro h
          injection h with h
          refine ⟨0, sec, by simp, ?_, ?_, ?_, ?_, ?_⟩
          · rw [← h]; exact hres
          · rw [← h]
          · rw [← h]; exact hc.1
          · rw [← h]; exact hc.2
          · intro j _ _ _ hj _ _; omega
        · rintro ⟨i, seci, hi, hresi, hname, h1, h2, hmin⟩
          cases i with
          | zero =>
            simp only [List.getElem?_cons_zero, Option.some.injEq] at hi
            rw [← hi, hres] at hresi
            injection hresi with hresi
            have hst : st = c.start := ((Prod.mk.injEq _ _ _ _).mp hresi).1
            have hen : en = c.«end» := ((Prod.mk.injEq _ _ _ _).mp hresi).2
            have : c = {name := sec.name, start := st, «end» := en} := by
              cases c
              simp_all
            rw [this]
          | succ i =>
            exact absurd ⟨hc.1, hc.2⟩ (hmin 0 sec st en (by omega) (by simp) hres)
      · rw [if_neg hc]
        rw [getCurrentSectionAux_some_iff stime now rest c]
        constructor
        · rintro ⟨i, seci, hi, hresi, hname, h1, h2, hmin⟩
          refine ⟨i + 1, seci, by simpa using hi, hresi, hname, h1, h2, ?_⟩
          intro j secj stj enj hj hgj hresj
          cases j with
          | zero =>
            simp only [List.getElem?_cons_zero, Option.some.injEq] at hgj
            rw [← hgj, hres] at hresj
            injection hresj with hresj
            intro hcon
            apply hc
            rw [(Prod.mk.injEq _ _ _ _).mp hresj |>.1, (Prod.mk.injEq _ _ _ _).mp hresj |>.2]
            exact ⟨hcon.1, hcon.2⟩
          | succ j =>
            exact hmin j secj stj enj (by omega) (by simpa using hgj) hresj
        · rintro ⟨i, seci, hi, hresi, hname, h1, h2, hmin⟩
          cases i with
          | zero =>
            simp only [List.getElem?_cons_zero, Option.some.injEq] at hi
            rw [← hi, hres] at hresi
            injection hresi with hresi
            exact absurd
              (by rw [((Prod.mk.injEq _ _ _ _).mp hresi).1, ((Prod.mk.injEq _ _ _ _).mp hresi).2]
                  exact (⟨h1, h2⟩ : _ ∧ _))
              hc
          | succ i =>
            refine ⟨i, seci, by simpa using hi, hresi, hname, h1, h2, ?_⟩
            intro j secj stj enj hj hgj hresj
            exact hmin (j + 1) secj stj enj (by omega) (by simpa using hgj) hresj

/-- C5: `getCurrentSection` scans the sections in order and returns exactly
the first section whose resolved `[start, end)` interval contains `now`
(start inclusive, end exclusive: a section whose `end` equals `now` is not
current), and returns null exactly when `now` lies in no section's
resolved interval. -/
theorem getCurrentSection_spec (sched : Schedule) (now : Int) :
    (∀ c, getCurrentSection sched now = some c ↔
       ∃ (i : Nat) (sec : Section), sched.sections[i]? = some sec ∧
         resolveInterval sched.start_time sec = .ok (c.start, c.«end») ∧
         c.name = sec.name ∧ c.start ≤ now ∧ now < c.«end» ∧
         ∀ (j : Nat) (secj : Section) (stj enj : Int), j < i →
           sched.sections[j]? = some secj →
           resolveInterval sched.start_time secj = .ok (stj, enj) →
           ¬(stj ≤ now ∧ now < enj)) ∧
    (getCurrentSection sched now = none ↔
       ∀ (j : Nat) (secj : Section) (stj enj : Int), sched.sections[j]? = some secj →
         resolveInterval sched.start_time secj = .ok (stj, enj) →
         ¬(stj ≤ now ∧ now < enj)) :=
  ⟨fun c => getCurrentSectionAux_some_iff sched.start_time now sched.sections c,
   getCurrentSectionAux_none_iff sched.start_time now sched.sections⟩

theorem setDuration_get_pair : ∀ (l : List Section) (i : Nat) (d : Option Int) (j : Nat),
    ((setDuration l i d)[j]?).map (fun s => (s.name, s.duration)) =
      if j = i then (l[j]?).map (fun s => (s.name, d))
      else (l[j]?).map (fun s => (s.name, s.duration))
  | [], i, d, j => by simp [setDuration]
  | sec :: rest, 0, d, 0 => by simp [setDuration]
  | sec :: rest, 0, d, j + 1 => by simp [setDuration]
  | sec :: rest, i + 1, d, 0 => by simp [setDuration]
  | sec :: rest, i + 1, d, j + 1 => by
    simp only [setDuration, List.getElem?_cons_succ]
    rw [setDuration_get_pair rest i d j]
    by_cases h : j = i
    · simp [h]
    · simp [h, fun hc : j + 1 = i + 1 => h (by omega)]

theorem deriveLoop_get_pair : ∀ (secs : List Section) (cur : Option Int) (j : Nat),
    ((deriveLoop cur secs)[j]?).map (fun s => (s.name, s.duration)) =
      (secs[j]?).map (fun s => (s.name, s.duration))
  | [], _, _ => rfl
  | sec :: rest, cur, j => by
    rw [deriveLoop]
    split
    · cases j with
      | zero => simp
      | succ j => simp
    · cases j with
      | zero => simp
      | succ j =>
        simp only [List.getElem?_cons_succ]
        exact deriveLoop_get_pair rest _ j

theorem recalc_get_pair (sched : Schedule) (ts : String) (j : Nat) :
    (((recalculateTimesFromStart sched ts).sections)[j]?).map (fun s => (s.name, s.duration)) =
      (sched.sections[j]?).map (fun s => (s.name, s.duration)) := by
  unfold recalculateTimesFromStart
  cases parseTime ts none with
  | error e => rfl
  | ok t0 => exact deriveLoop_get_pair sched.sections (some t0) j

theorem updateSectionDuration_ok (sched : Schedule) (i : Int) (d : Int)
    (h0 : 0 ≤ i) (hlt : i < (sched.sections.length : Int)) (hd : 1 ≤ d) :
    updateSectionDuration sched i (some d) =
      (recalculateTimesFromStart
        {sched with sections := setDuration sched.sections i.toNat (some d)}
        sched.start_time, none) := by
  rw [updateSectionDuration, if_neg (by omega)]
  simp only [if_neg (by omega : ¬ d < 1)]

/-- C6: `updateSectionDuration` reports an index error for any out-of-bounds
index and an invalid-duration error for a requested duration below one
minute, in both cases returning the schedule exactly as it was; for an
in-bounds index and duration at least one it reports no error, runs the
full recompute on the schedule with that section's duration replaced, and
the resulting schedule has that section's duration set to the new value
with every other section's name and duration untouched. -/
theorem updateSectionDuration_spec (sched : Schedule) (i : Int) (d : Int) :
    ((i < 0 ∨ (sched.sections.length : Int) ≤ i) →
       updateSectionDuration sched i (some d) = (sched, some .indexError)) ∧
    (0 ≤ i → i < (sched.sections.length : Int) → d < 1 →
       updateSectionDuration sched i (some d) = (sched, some .invalidDuration)) ∧
    (0 ≤ i → i < (sched.sections.length : Int) → 1 ≤ d →
       (updateSectionDuration sched i (some d)).2 = none ∧
       (updateSectionDuration sched i (some d)).1 =
         recalculateTimesFromStart
           {sched with sections := setDuration sched.sections i.toNat (some d)}
           sched.start_time ∧
       ((updateSectionDuration sched i (some d)).1.sections[i.toNat]?).map
           (fun s => (s.name, s.duration)) =
         (sched.sections[i.toNat]?).map (fun s => (s.name, some d)) ∧
       ∀ (j : Nat), j ≠ i.toNat →
         ((updateSectionDuration sched i (some d)).1.sections[j]?).map
             (fun s => (s.name, s.duration)) =
           (sched.sections[j]?).map (fun s => (s.name, s.duration))) := by
  refine ⟨?_, ?_, ?_⟩
  · intro hoob
    rw [updateSectionDuration, if_pos hoob]
  · intro h0 hlt hd
    rw [updateSectionDuration, if_neg (by omega)]
    simp only [if_pos hd]
  · intro h0 hlt hd
    have hupd := updateSectionDuration_ok sched i d h0 hlt hd
    refine ⟨by rw [hupd], by rw [hupd], ?_, ?_⟩
    · rw [hupd]
      show (((recalculateTimesFromStart _ sched.start_time).sections)[i.toNat]?).map _ = _
      rw [recalc_get_pair]
      show ((setDuration sched.sections i.toNat (some d))[i.toNat]?).map _ = _
      rw [setDuration_get_pair, if_pos rfl]
    · intro j hj
      rw [hupd]
      show (((recalculateTimesFromStart _ sched.start_time).sections)[j]?).map _ = _
      rw [recalc_get_pair]
      show ((setDuration sched.sections i.toNat (some d))[j]?).map _ = _
      rw [setDuration_get_pair, if_neg hj]

/-- A concrete two-section schedule for the C6 witness. -/
def c6Sched : Schedule :=
  {title := "C6", start_time := "10:00:00",
   sections := [{name := "P", duration := some 10, start := "10:00:00", «end» := "10:10:00"},
                {name := "Q", duration := some 15, start := "10:10:00", «end» := "10:25:00"}]}

/-- Witness for C6: an out-of-bounds index, a zero duration, and a valid
update at concrete inputs. -/
theorem updateSectionDuration_spec_witness :
    updateSectionDuration c6Sched 5 (some 10) = (c6Sched, some .indexError) ∧
    updateSectionDuration c6Sched 0 (some 0) = (c6Sched, some .invalidDuration) ∧
    (updateSectionDuration c6Sched 1 (some 30)).2 = none :=
  ⟨(updateSectionDuration_spec c6Sched 5 10).1 (by right; decide),
   (updateSectionDuration_spec c6Sched 0 0).2.1 (by decide) (by decide) (by decide),
   ((updateSectionDuration_spec c6Sched 1 30).2.2 (by decide) (by decide) (by decide)).1⟩

theorem validateLoop_ok_shape : ∀ (rs : List RawSection) (cur : Option Int) (idx : Nat)
    (out : List Section), validateLoop cur idx rs = .ok out →
    out.length = rs.length ∧
    ∀ (j : Nat) (r : RawSection), rs[j]? = some r →
      r.name ≠ "" ∧ ∃ dur, r.duration = some dur ∧
        (out[j]?).map (fun s => (s.name, s.duration)) = some (r.name, dur)
  | [], cur, idx, out => by
    intro h
    rw [validateLoop] at h
    injection h with h
    rw [← h]
    exact ⟨rfl, by simp⟩
  | r :: rest, cur, idx, out => by
    intro h
    rw [validateLoop] at h
    split at h
    · exact absurd h (by simp)
    · rename_i hname
      split at h
      · exact absurd h (by simp)
      · rename_i dur hdur
        dsimp only at h
        split at h
        · exact absurd h (by simp)
        · rename_i base hbase
          split at h
          · exact absurd h (by simp)
          · rename_i out' hval
            injection h with h
            have ih := validateLoop_ok_shape rest _ (idx + 1) out' hval
            rw [← h]
            refine ⟨by simpa using ih.1, ?_⟩
            intro j rj hj
            cases j with
            | zero =>
              simp only [List.getElem?_cons_zero, Option.some.injEq] at hj
              rw [← hj]
              exact ⟨hname, dur, hdur, by simp⟩
            | succ j =>
              simp only [List.getElem?_cons_succ] at hj ⊢
              exact ih.2 j rj hj

theorem parseYAMLData_ok_inv {now : Int} {yamlText : String} {sched : Schedule}
    (h : parseYAMLData now yamlText = .ok sched) :
    (parseYAMLRaw yamlText).sections ≠ [] ∧
    ∃ t0, validateLoop (some t0) 0 (parseYAMLRaw yamlText).sections = .ok sched.sections := by
  simp only [parseYAMLData] at h
  split at h
  · exact absurd h (by simp)
  · rename_i hne
    split at h
    · exact absurd h (by simp)
    · rename_i t0 ht0
      split at h
      · exact absurd h (by simp)
      · rename_i secs hval
        injection h with h
        refine ⟨hne, t0, ?_⟩
        rw [← h]
        exact hval

/-- C2 amended: `parseYAMLData` (the decode used on import and on load)
fails whenever the decoded section list is empty, some decoded section has
an empty name, or some decoded section never received a `duration:` line;
on success the returned schedule's sections correspond one-to-one to the
decoded sections, each with a non-empty name and with whatever number the
`duration:` line parsed to — the decode does NOT reject non-positive (or
NaN) durations, as the counterexample shows. -/
theorem parseYAMLData_validation (now : Int) (yamlText : String) :
    ((parseYAMLRaw yamlText).sections = [] → ∃ e, parseYAMLData now yamlText = .error e) ∧
    ((∃ r ∈ (parseYAMLRaw yamlText).sections, r.name = "" ∨ r.duration = none) →
       ∃ e, parseYAMLData now yamlText = .error e) ∧
    (∀ sched, parseYAMLData now yamlText = .ok sched →
       sched.sections ≠ [] ∧
       sched.sections.length = (parseYAMLRaw yamlText).sections.length ∧
       ∀ (j : Nat) (r : RawSection), (parseYAMLRaw yamlText).sections[j]? = some r →
         r.name ≠ "" ∧ ∃ dur, r.duration = some dur ∧
           (sched.sections[j]?).map (fun s => (s.name, s.duration)) = some (r.name, dur)) := by
  refine ⟨?_, ?_, ?_⟩
  · intro hempty
    simp only [parseYAMLData, hempty]
    exact ⟨_, rfl⟩
  · intro hbad
    cases hres : parseYAMLData now yamlText with
    | error e => exact ⟨e, rfl⟩
    | ok sched =>
      exfalso
      obtain ⟨r, hmem, hr⟩ := hbad
      obtain ⟨hne, t0, hval⟩ := parseYAMLData_ok_inv hres
      obtain ⟨j, hj⟩ := List.get_of_mem hmem
      have hj' : (parseYAMLRaw yamlText).sections[(j : Nat)]? = some r := by
        rw [List.getElem?_eq_getElem j.isLt]
        simp [← hj, List.get_eq_getElem]
      have := (validateLoop_ok_shape _ _ _ _ hval).2 j r hj'
      rcases hr with hr | hr
      · exact this.1 hr
      · obtain ⟨dur, hdur, _⟩ := this.2
        rw [hr] at hdur
        exact absurd hdur (by simp)
  · intro sched hres
    obtain ⟨hne, t0, hval⟩ := parseYAMLData_ok_inv hres
    have hshape := validateLoop_ok_shape _ _ _ _ hval
    refine ⟨?_, hshape.1, hshape.2⟩
    intro hnil
    rw [hnil] at hshape
    exact hne (List.length_eq_zero.mp hshape.1.symm)

/-- The configuration text for the C2 counterexample: a syntactically
well-formed file whose single section has duration 0. -/
def c2Text : String :=
  "start_time: 10:00:00\nsections:\n- name: A\n  duration: 0"

/-- C2 counterexample: `parseYAMLData` succeeds on a configuration whose
only section has the non-positive duration 0, returning a schedule that
contains that section — it does not fail as the claim requires. -/
theorem parseYAMLData_accepts_nonpositive :
    parseYAMLData 0 c2Text =
      .ok {title := "Presentation Timer", start_time := "10:00:00",
           sections := [{name := "A", duration := some 0,
                         start := "10:00:00", «end» := "10:00:00"}]} := by
  rfl

/-- Witness for the amended C2: a text with no sections fails, and a text
whose section lacks a `duration:` line fails. -/
theorem parseYAMLData_validation_witness :
    (∃ e, parseYAMLData 0 "title: X" = .error e) ∧
    (∃ e, parseYAMLData 0 "sections:\n- name: A" = .error e) :=
  ⟨(parseYAMLData_validation 0 "title: X").1 (by rfl),
   (parseYAMLData_validation 0 "sections:\n- name: A").2.1
     ⟨{name := "A", duration := none}, by decide, Or.inr rfl⟩⟩

theorem recalc_start_time (sched : Schedule) (ts : String) :
    (recalculateTimesFromStart sched ts).start_time = ts := by
  unfold recalculateTimesFromStart
  cases parseTime ts none <;> rfl

theorem findIdxName_spec : ∀ (l : List Section) (nm : String) (k : Nat),
    findIdxName l nm = some k →
    (∃ sec, l[k]? = some sec ∧ sec.name = nm) ∧
    ∀ (m : Nat) (secm : Section), m < k → l[m]? = some secm → secm.name ≠ nm
  | [], nm, k => by simp [findIdxName]
  | sec :: rest, nm, k => by
    intro h
    rw [findIdxName] at h
    split at h
    · rename_i heq
      injection h with h
      rw [← h]
      exact ⟨⟨sec, by simp, heq⟩, fun m _ hm _ => by omega⟩
    · rename_i hne
      cases hfr : findIdxName rest nm with
      | none => rw [hfr] at h; exact absurd h (by simp)
      | some k' =>
        rw [hfr] at h
        simp at h
        have ih := findIdxName_spec rest nm k' hfr
        rw [← h]
        refine ⟨⟨ih.1.choose, by rw [List.getElem?_cons_succ]; exact ih.1.choose_spec.1,
          ih.1.choose_spec.2⟩, ?_⟩
        intro m secm hm hgm
        cases m with
        | zero =>
          simp only [List.getElem?_cons_zero, Option.some.injEq] at hgm
          rw [← hgm]
          exact hne
        | succ m =>
          exact ih.2 m secm (by omega) (by simpa using hgm)

theorem findIdxName_exists : ∀ (l : List Section) (nm : String) (i : Nat) (seci : Section),
    l[i]? = some seci → seci.name = nm → ∃ k, findIdxName l nm = some k ∧ k ≤ i
  | [], _, i, _ => by simp
  | sec :: rest, nm, i, seci => by
    intro hi hnm
    rw [findIdxName]
    by_cases h : sec.name = nm
    · exact ⟨0, by rw [if_pos h], by omega⟩
    · cases i with
      | zero =>
        simp only [List.getElem?_cons_zero, Option.some.injEq] at hi
        rw [hi] at h
        exact absurd hnm h
      | succ i =>
        obtain ⟨k, hk, hki⟩ := findIdxName_exists rest nm i seci (by simpa using hi) hnm
        exact ⟨k + 1, by rw [if_neg h, hk]; rfl, by omega⟩

/-- The reduction of `adjustTimes` in its duration-adjusting branch when
the located section's new duration stays at least one minute. -/
theorem adjustTimes_update (sched : Schedule) (now minutes st : Int) (cur : CurrentSection)
    (k : Nat) (sec : Section) (d : Int)
    (hst : parseTime sched.start_time none = .ok st) (hnow : st ≤ now)
    (hcur : getCurrentSection sched now = some cur)
    (hk : findIdxName sched.sections cur.name = some k)
    (hsec : sched.sections[k]? = some sec) (hd : sec.duration = some d)
    (h1 : 1 ≤ d + minutes) :
    adjustTimes sched now minutes =
      recalculateTimesFromStart
        {sched with sections := setDuration sched.sections k (some (d + minutes))}
        sched.start_time := by
  have hklen : k < sched.sections.length := by
    by_contra hge
    rw [List.getElem?_eq_none (by omega)] at hsec
    exact absurd hsec (by simp)
  rw [adjustTimes, hst]
  dsimp only
  rw [if_neg (by omega), hcur]
  dsimp only
  rw [hk]
  dsimp only
  rw [hsec]
  dsimp only
  rw [hd]
  simp only [Option.map_some']
  rw [if_neg (by omega)]
  rw [updateSectionDuration_ok sched (k : Int) (d + minutes) (by omega)
    (by exact_mod_cast hklen) h1]
  simp

/-- The duplicate-name schedule exhibiting C7's failure and C10's
behaviour: two sections both named `A`. -/
def c7Sched : Schedule :=
  {title := "C7", start_time := "09:00:00",
   sections := [{name := "A", duration := some 10, start := "09:00:00", «end» := "09:10:00"},
                {name := "A", duration := some 10, start := "09:10:00", «end» := "09:20:00"}]}

/-- C7 counterexample: at 09:15 the current section is the second `A`
(resolved interval [09:10, 09:20)), yet `adjustTimes` with +5 leaves that
section's duration at 10 and instead changes the first `A` to 15 — the
delta is not applied to the duration of the section current at `now`. -/
theorem adjustTimes_wrong_section :
    getCurrentSection c7Sched 33300000 =
      some {name := "A", start := 33000000, «end» := 33600000} ∧
    (c7Sched.sections[1]?).map Section.duration = some (some 10) ∧
    ((adjustTimes c7Sched 33300000 5).sections[1]?).map Section.duration = some (some 10) ∧
    ((adjustTimes c7Sched 33300000 5).sections[0]?).map Section.duration = some (some 15) := by
  refine ⟨by decide, by decide, by decide, by decide⟩

/-- C7 amended: `adjustTimes` shifts the schedule's start time-of-day by
the delta and recomputes when `now` is strictly before the start (no lower
bound on the shift); otherwise it applies the delta to the duration of the
first section whose name equals the current section's name (the current
section itself whenever names are distinct, see the counterexample for
duplicate names), as a silent no-op — not an error — when no section is
current or when the resulting duration would drop below one minute. -/
theorem adjustTimes_spec (sched : Schedule) (now minutes st : Int)
    (hst : parseTime sched.start_time none = .ok st) :
    (now < st →
       adjustTimes sched now minutes =
         recalculateTimesFromStart sched (formatTime (some (st + minutes * 60 * 1000))) ∧
       (adjustTimes sched now minutes).start_time =
         formatTime (some (st + minutes * 60 * 1000))) ∧
    (st ≤ now → getCurrentSection sched now = none → adjustTimes sched now minutes = sched) ∧
    (∀ (cur : CurrentSection) (k : Nat) (sec : Section) (d : Int),
       st ≤ now → getCurrentSection sched now = some cur →
       findIdxName sched.sections cur.name = some k →
       sched.sections[k]? = some sec → sec.duration = some d →
       ((d + minutes < 1 → adjustTimes sched now minutes = sched) ∧
        (1 ≤ d + minutes →
          ((adjustTimes sched now minutes).sections[k]?).map (fun s => (s.name, s.duration)) =
            (sched.sections[k]?).map (fun s => (s.name, some (d + minutes))) ∧
          ∀ (j : Nat), j ≠ k →
            ((adjustTimes sched now minutes).sections[j]?).map
                (fun s => (s.name, s.duration)) =
              (sched.sections[j]?).map (fun s => (s.name, s.duration))))) := by
  refine ⟨?_, ?_, ?_⟩
  · intro hb
    constructor
    · rw [adjustTimes, hst]
      dsimp only
      rw [if_pos hb]
    · rw [adjustTimes, hst]
      dsimp only
      rw [if_pos hb, recalc_start_time]
  · intro hnow hnone
    rw [adjustTimes, hst]
    dsimp only
    rw [if_neg (by omega), hnone]
  · intro cur k sec d hnow hcur hk hsec hd
    constructor
    · intro hlow
      rw [adjustTimes, hst]
      dsimp only
      rw [if_neg (by omega), hcur]
      dsimp only
      rw [hk]
      dsimp only
      rw [hsec]
      dsimp only
      rw [hd]
      simp only [Option.map_some']
      rw [if_pos hlow]
    · intro h1
      rw [adjustTimes_update sched now minutes st cur k sec d hst hnow hcur hk hsec hd h1]
      constructor
      · show (((recalculateTimesFromStart _ sched.start_time).sections)[k]?).map _ = _
        rw [recalc_get_pair]
        show ((setDuration sched.sections k (some (d + minutes)))[k]?).map _ = _
        rw [setDuration_get_pair, if_pos rfl]
      · intro j hj
        show (((recalculateTimesFromStart _ sched.start_time).sections)[j]?).map _ = _
        rw [recalc_get_pair]
        show ((setDuration sched.sections k (some (d + minutes)))[j]?).map _ = _
        rw [setDuration_get_pair, if_neg hj]

/-- A distinct-name schedule for the C7 witness. -/
def c7WSched : Schedule :=
  {title := "C7W", start_time := "09:00:00",
   sections := [{name := "X", duration := some 10, start := "09:00:00", «end» := "09:10:00"},
                {name := "Y", duration := some 25, start := "09:10:00", «end» := "09:35:00"}]}

/-- Witness for the amended C7: before the start the start time shifts by
the delta; during section `Y` the delta lands on `Y`'s duration. -/
theorem adjustTimes_spec_witness :
    (adjustTimes c7WSched 32000000 5).start_time =
      formatTime (some (32400000 + 5 * 60 * 1000)) ∧
    ((adjustTimes c7WSched 33000000 5).sections[1]?).map (fun s => (s.name, s.duration)) =
      (c7WSched.sections[1]?).map (fun s => (s.name, some (25 + 5))) :=
  ⟨((adjustTimes_spec c7WSched 32000000 5 32400000 rfl).1 (by decide)).2,
   (((adjustTimes_spec c7WSched 33000000 5 32400000 rfl).2.2
       {name := "Y", start := 33000000, «end» := 34500000} 1
       {name := "Y", duration := some 25, start := "09:10:00", «end» := "09:35:00"} 25
       (by decide) (by decide) rfl rfl rfl).2 (by decide)).1⟩

/-- C10: in the duration branch, when two sections share a name and `now`
lies inside the later one's resolved interval, `adjustTimes` locates the
section by name and therefore applies the duration change to the first
section bearing that name — not the section containing `now`, whose
duration is left unchanged. -/
theorem adjustTimes_duplicate_names (sched : Schedule) (now minutes st : Int)
    (cur : CurrentSection) (i j k : Nat) (seci secj seck : Section) (dk : Int)
    (hst : parseTime sched.start_time none = .ok st) (hnow : st ≤ now)
    (hcur : getCurrentSection sched now = some cur)
    (hi : sched.sections[i]? = some seci) (hj : sched.sections[j]? = some secj)
    (hij : i < j)
    (hnamei : seci.name = cur.name) (hnamej : secj.name = cur.name)
    (hres : resolveInterval sched.start_time secj = .ok (cur.start, cur.«end»))
    (hin1 : cur.start ≤ now) (hin2 : now < cur.«end»)
    (hk : findIdxName sched.sections cur.name = some k)
    (hseck : sched.sections[k]? = some seck) (hdk : seck.duration = some dk)
    (h1 : 1 ≤ dk + minutes) :
    k ≤ i ∧ k ≠ j ∧
    ((adjustTimes sched now minutes).sections[j]?).map (fun s => (s.name, s.duration)) =
      some (secj.name, secj.duration) ∧
    ((adjustTimes sched now minutes).sections[k]?).map (fun s => (s.name, s.duration)) =
      some (seck.name, some (dk + minutes)) := by
  have hki : k ≤ i := by
    by_contra hgt
    exact (findIdxName_spec sched.sections cur.name k hk).2 i seci (by omega) hi hnamei
  refine ⟨hki, by omega, ?_, ?_⟩
  · rw [adjustTimes_update sched now minutes st cur k seck dk hst hnow hcur hk hseck hdk h1]
    show (((recalculateTimesFromStart _ sched.start_time).sections)[j]?).map _ = _
    rw [recalc_get_pair]
    show ((setDuration sched.sections k (some (dk + minutes)))[j]?).map _ = _
    rw [setDuration_get_pair, if_neg (by omega), hj]
    rfl
  · rw [adjustTimes_update sched now minutes st cur k seck dk hst hnow hcur hk hseck hdk h1]
    show (((recalculateTimesFromStart _ sched.start_time).sections)[k]?).map _ = _
    rw [recalc_get_pair]
    show ((setDuration sched.sections k (some (dk + minutes)))[k]?).map _ = _
    rw [setDuration_get_pair, if_pos rfl, hseck]
    rfl

/-- The duplicate-name schedule for the C10 witness. -/
def c10Sched : Schedule :=
  {title := "C10", start_time := "08:00:00",
   sections := [{name := "B", duration := some 10, start := "08:00:00", «end» := "08:10:00"},
                {name := "B", duration := some 20, start := "08:10:00", «end» := "08:30:00"}]}

/-- Witness for C10: at 08:20 the current section is the second `B`; a +3
adjustment changes the first `B` from 10 to 13 and leaves the second `B`
at 20. -/
theorem adjustTimes_duplicate_names_witness :
    (0 : Nat) ≤ 0 ∧ (0 : Nat) ≠ 1 ∧
    ((adjustTimes c10Sched 30000000 3).sections[1]?).map (fun s => (s.name, s.duration)) =
      some ("B", some 20) ∧
    ((adjustTimes c10Sched 30000000 3).sections[0]?).map (fun s => (s.name, s.duration)) =
      some ("B", some (10 + 3)) :=
  adjustTimes_duplicate_names c10Sched 30000000 3 28800000
    {name := "B", start := 29400000, «end» := 30600000} 0 1 0
    {name := "B", duration := some 10, start := "08:00:00", «end» := "08:10:00"}
    {name := "B", duration := some 20, start := "08:10:00", «end» := "08:30:00"}
    {name := "B", duration := some 10, start := "08:00:00", «end» := "08:10:00"} 10
    rfl (by decide) (by decide) rfl rfl (by decide) rfl rfl rfl
    (by decide) (by decide) rfl rfl rfl (by decide)

end PresoTimer
